import Mathlib

/-!
Verification of the `mongo-table` wrapper (`src/table.js`) against its
natural-language specification.

The embedding models JavaScript values reaching MongoDB as `Value`,
documents as association lists of fields, and the MongoDB collection as a
list of documents.  Store operations (`findOne`, `replaceOne`,
`deleteMany`, `findOneAndUpdate`, `find`) are modelled on that state with
MongoDB's documented matching semantics; each table operation from
`table.js` is translated function by function, returning alongside its
result the trace of store calls it issued, so that "no call reaches the
store" claims are statable.
-/

namespace MongoTable

/-- JavaScript/BSON values as they occur in this library: numbers
(modelled as integers, the only numeric uses here are ids and timestamps),
strings, booleans and arrays. -/
inductive Value where
  | vInt (n : Int)
  | vStr (s : String)
  | vBool (b : Bool)
  | vArr (xs : List Value)

mutual

/-- Structural equality of values (JS deep equality as the store sees it). -/
def Value.beq : Value → Value → Bool
  | .vInt a, .vInt b => a == b
  | .vStr a, .vStr b => a == b
  | .vBool a, .vBool b => a == b
  | .vArr a, .vArr b => Value.beqList a b
  | _, _ => false

/-- Elementwise equality of value lists. -/
def Value.beqList : List Value → List Value → Bool
  | [], [] => true
  | x :: xs, y :: ys => Value.beq x y && Value.beqList xs ys
  | _, _ => false

end

instance : BEq Value := ⟨Value.beq⟩

mutual

theorem Value.eq_of_beq : ∀ (a b : Value), Value.beq a b = true → a = b
  | .vInt _, .vInt _, h => by
    simpa [Value.beq] using h
  | .vStr _, .vStr _, h => by
    simpa [Value.beq] using h
  | .vBool _, .vBool _, h => by
    simpa [Value.beq] using h
  | .vArr a, .vArr b, h => by
    have := Value.eqList_of_beq a b (by simpa [Value.beq] using h)
    simp [this]
  | .vInt _, .vStr _, h => by simp [Value.beq] at h
  | .vInt _, .vBool _, h => by simp [Value.beq] at h
  | .vInt _, .vArr _, h => by simp [Value.beq] at h
  | .vStr _, .vInt _, h => by simp [Value.beq] at h
  | .vStr _, .vBool _, h => by simp [Value.beq] at h
  | .vStr _, .vArr _, h => by simp [Value.beq] at h
  | .vBool _, .vInt _, h => by simp [Value.beq] at h
  | .vBool _, .vStr _, h => by simp [Value.beq] at h
  | .vBool _, .vArr _, h => by simp [Value.beq] at h
  | .vArr _, .vInt _, h => by simp [Value.beq] at h
  | .vArr _, .vStr _, h => by simp [Value.beq] at h
  | .vArr _, .vBool _, h => by simp [Value.beq] at h

theorem Value.eqList_of_beq : ∀ (a b : List Value), Value.beqList a b = true → a = b
  | [], [], _ => rfl
  | x :: xs, y :: ys, h => by
    have h2 : Value.beq x y = true ∧ Value.beqList xs ys = true := by
      simpa [Value.beqList, Bool.and_eq_true] using h
    have hx := Value.eq_of_beq x y h2.1
    have hxs := Value.eqList_of_beq xs ys h2.2
    rw [hx, hxs]
  | [], _ :: _, h => by simp [Value.beqList] at h
  | _ :: _, [], h => by simp [Value.beqList] at h

end

mutual

theorem Value.beq_refl : ∀ (a : Value), Value.beq a a = true
  | .vInt _ => by simp [Value.beq]
  | .vStr _ => by simp [Value.beq]
  | .vBool _ => by simp [Value.beq]
  | .vArr xs => by simpa [Value.beq] using Value.beqList_refl xs

theorem Value.beqList_refl : ∀ (a : List Value), Value.beqList a a = true
  | [] => rfl
  | x :: xs => by
    simp only [Value.beqList, Bool.and_eq_true]
    exact ⟨Value.beq_refl x, Value.beqList_refl xs⟩

end

instance : DecidableEq Value := fun a b =>
  decidable_of_iff (Value.beq a b = true)
    ⟨Value.eq_of_beq a b, fun h => h ▸ Value.beq_refl a⟩

/-- A document: an open-ended mapping from field name to value, modelled
as an association list in key order; lookup takes the first occurrence
(JS objects have unique keys). -/
abbrev Doc := List (String × Value)

/-- Field lookup, `doc[k]`; `none` models JS `undefined`. -/
def getF (d : Doc) (k : String) : Option Value :=
  (d.find? (fun p => p.1 == k)).map (fun p => p.2)

/-- JavaScript truthiness of a value: `0`, `""` and `false` are falsy;
every array and object is truthy. -/
def jsTruthy : Value → Bool
  | .vInt n => n != 0
  | .vStr s => s != ""
  | .vBool b => b
  | .vArr _ => true

/-- Truthiness of a possibly-`undefined` value (`none` = `undefined`,
which is falsy). -/
def jsTruthyOpt : Option Value → Bool
  | none => false
  | some v => jsTruthy v

/-- `Object.assign`-style spread `{...a, ...b}` : entries of `b` override
entries of `a` with the same key.  Keys overridden by `b` are listed at
`b`'s position; field lookup (`getF`) agrees with JS for every key. -/
def objAssign (a b : Doc) : Doc :=
  a.filter (fun p => !(b.any (fun q => q.1 == p.1))) ++ b

/-- Match criteria a filter can place on one field, covering the query
operators `table.js` uses: equality, `$in`, `$all`, and the
`{$lte: max, $gte: min}` range of `getBySortedBetween`. -/
inductive Cond where
  | ceq (v : Value)
  | cin (vs : List Value)
  | callOp (vs : List Value)
  | crange (lo hi : Int)
deriving DecidableEq

/-- A MongoDB query filter: a mapping from field name to match criteria. -/
abbrev Filter := List (String × Cond)

/-- MongoDB semantics of one criterion against a field value
(`none` = field absent).
  * equality: the value equals the operand (a missing field does not match);
  * `$in`: the value is a member of the list, or, for an array-valued
    field, some element is;
  * `$all`: an empty operand list matches no document; on a scalar field
    every operand must equal it, on an array field every operand must be
    an element;
  * `{$lte: hi, $gte: lo}`: the value is a number in the closed range. -/
def matchCond : Cond → Option Value → Bool
  | .ceq v, some w => w == v
  | .ceq _, none => false
  | .cin vs, some (.vArr xs) => xs.any (fun x => vs.contains x) || vs.contains (.vArr xs)
  | .cin vs, some w => vs.contains w
  | .cin _, none => false
  | .callOp vs, some (.vArr xs) => !vs.isEmpty && vs.all (fun x => xs.contains x)
  | .callOp vs, some w => !vs.isEmpty && vs.all (fun x => x == w)
  | .callOp _, none => false
  | .crange lo hi, some (.vInt n) => lo ≤ n && n ≤ hi
  | .crange _ _, _ => false

/-- A document matches a filter when it matches every criterion;
the empty filter `{}` matches every document. -/
def matchFilter (f : Filter) (d : Doc) : Bool :=
  f.all (fun p => matchCond p.2 (getF d p.1))

/-- Building the filter object `{...filter, [k]: c}` of
`getBySortedBetween` (table.js:235): the computed key `k` replaces any
criterion `filter` held for `k`. -/
def objSetCond (f : Filter) (k : String) (c : Cond) : Filter :=
  f.filter (fun p => p.1 != k) ++ [(k, c)]

/-- The collection state: the list of stored documents. -/
abbrev Col := List Doc

/-- The store calls a table operation can issue, recorded as a trace. -/
inductive OpCall where
  | findOneC (qid : Option Value)
  | replaceOneC (qid : Option Value) (doc : Doc) (upsert : Bool)
  | deleteOneC (qid : Option Value)
  | findOneAndUpdateC (qid : Option Value) (props : Doc) (upsert : Bool)
  | deleteManyC (f : Filter)
  | findC (f : Filter) (sort : Option (String × Int)) (skip limit : Int)
deriving DecidableEq

/-- Store model: `findOne({_id: q})` returns the first document whose
`_id` equals `q` (`q = none` models the filter `{_id: undefined}`, which
matches no stored document since every stored document has an `_id`). -/
def findOneQ (col : Col) (q : Option Value) : Option Doc :=
  col.find? (fun d => getF d "_id" == q)

/-- Replace the first element satisfying `p` by `newd`; `none` when no
element matches. -/
def replaceFirst (p : Doc → Bool) (newd : Doc) : Col → Option Col
  | [] => none
  | d :: ds =>
    if p d then some (newd :: ds)
    else (replaceFirst p newd ds).map (fun ds2 => d :: ds2)

/-- Store model: `replaceOne({_id: q}, r, {upsert})` for replacement
documents that do not carry an `_id` conflicting with the filter (the
store rejects those; `table.js` only reaches this call with payload
documents).  The first matching document is replaced by `r` carrying the
filter's `_id`; with no match and `upsert`, that document is inserted. -/
def replaceOne (col : Col) (q : Option Value) (r : Doc) (upsert : Bool) : Col :=
  let newd : Doc :=
    match q, getF r "_id" with
    | some v, none => ("_id", v) :: r
    | _, _ => r
  match replaceFirst (fun d => getF d "_id" == q) newd col with
  | some col2 => col2
  | none => if upsert then col ++ [newd] else col

/-- Store model: `deleteOne({_id: q})` removes the first matching
document (and is a no-op when none matches). -/
def deleteOneQ (col : Col) (q : Option Value) : Col :=
  col.eraseP (fun d => getF d "_id" == q)

/-- Store model: `deleteMany(filter)` removes every matching document. -/
def deleteManyQ (f : Filter) (col : Col) : Col :=
  col.filter (fun d => !matchFilter f d)

/-- `get(id)` (table.js:86-91): `assert(id)` then `findOne({_id: id})`.
Result: the found document (or absent) and the trace of store calls; a
falsy/missing id is a synchronous precondition failure with no call. -/
def get (id : Option Value) (col : Col) : Except String (Option Doc × List OpCall) :=
  if !jsTruthyOpt id then .error "requires id"
  else .ok (findOneQ col id, [.findOneC id])

/-- `has(id)` (table.js:101-104): no precondition; issues
`findOne({_id: id})` (with projection) and returns whether a document
exists. -/
def has (id : Option Value) (col : Col) : Bool × List OpCall :=
  (match findOneQ col id with
   | some _ => true
   | none => false, [.findOneC id])

/-- `set(id, props, opts = {upsert:true})` (table.js:105-111): the target
id is the argument when truthy, else `props.id`; issues
`replaceOne({_id: qid}, props, opts)` (no precondition check) and returns
`{...query, ...props}` together with the new state and trace.  A `query`
whose `_id` is `undefined` is modelled as the empty object. -/
def set (id : Option Value) (props : Doc) (upsert : Bool) (col : Col) :
    Doc × Col × List OpCall :=
  let qid : Option Value := if jsTruthyOpt id then id else getF props "id"
  let query : Doc := match qid with | some v => [("_id", v)] | none => []
  (objAssign query props, replaceOne col qid props upsert,
    [.replaceOneC qid props upsert])

/-- `delete(id)` (table.js:155-158): no precondition; issues
`deleteOne({_id: id})` and always returns `{_id: id, id}`. -/
def del (id : Option Value) (col : Col) : Doc × Col × List OpCall :=
  (match id with | some v => [("_id", v), ("id", v)] | none => [],
    deleteOneQ col id, [.deleteOneC id])

/-- `$set` of one field: overwrite in place when present, else append. -/
def setField (d : Doc) (k : String) (v : Value) : Doc :=
  match d with
  | [] => [(k, v)]
  | p :: ps => if p.1 == k then (k, v) :: ps else p :: setField ps k v

/-- Store model of the `$set` update operator: each field of `props` is
written into `d` in order (a partial field merge, not a replacement). -/
def applySet (d : Doc) (props : Doc) : Doc :=
  props.foldl (fun acc p => setField acc p.1 p.2) d

/-- Store model: `findOneAndUpdate({_id: q}, {$set: props}, {upsert,
returnNewDocument: true})` as `table.js:133-142` invokes it, with the
store honouring the `returnNewDocument: true` the code passes: the first
matching document is merged with `props` and the post-merge document is
returned; with no match and `upsert` the merge is applied to `{_id: q}`
and inserted; with no match and no upsert the value is absent. -/
def findOneAndUpdateQ (col : Col) (q : Option Value) (props : Doc) (upsert : Bool) :
    Option Doc × Col :=
  match findOneQ col q with
  | some d =>
    let newd := applySet d props
    (some newd,
      match replaceFirst (fun e => getF e "_id" == q) newd col with
      | some col2 => col2
      | none => col)
  | none =>
    if upsert then
      let base : Doc := match q with | some v => [("_id", v)] | none => []
      let newd := applySet base props
      (some newd, col ++ [newd])
    else (none, col)

/-- `update(id, props, opts = {upsert:true})` (table.js:131-143):
`assert(id)` then `findOneAndUpdate({_id: id}, {$set: props},
{...opts, returnNewDocument: true})`, returning `row.value`. -/
def update (id : Option Value) (props : Doc) (upsert : Bool) (col : Col) :
    Except String (Option Doc × Col × List OpCall) :=
  if !jsTruthyOpt id then .error "requires id"
  else
    let r := findOneAndUpdateQ col id props upsert
    .ok (r.1, r.2, [.findOneAndUpdateC id props upsert])

/-- `deleteAll(ids = [])` (table.js:159-161): issues
`deleteMany({_id: {$all: ids}})` — note `$all`, not `$in`. -/
def deleteAll (ids : List Value) (col : Col) : Col × List OpCall :=
  (deleteManyQ [("_id", .callOp ids)] col, [.deleteManyC [("_id", .callOp ids)]])

/-- `getAll(ids = [])` (table.js:93-95): `find({_id: {$in: ids}})`. -/
def getAll (ids : List Value) (col : Col) : Col × List OpCall :=
  (col.filter (matchFilter [("_id", .cin ids)]),
    [.findC [("_id", .cin ids)] none 0 0])

/-! ### Schema provisioning (table.js:5-84) -/

/-- The declarative schema as destructured at table.js:6-14: `name`,
`table` (the alternative name key, and the identifier `push`/`pull`
reference), `indices`, `compound`, `text`, and `ttl` entries
`[fieldName, options]`; the only ttl option the code reads is
`expireAfterSeconds`, so options are modelled as that field alone
(`none` = the field is missing). -/
structure Schema where
  name : String
  table : Option Value := none
  indices : List String := []
  compound : List (List String) := []
  text : List String := []
  ttl : List (String × Option Int) := []

/-- The index direction argument of `createIndex` (table.js:23): the
numeric direction `1` or the string `"text"`. -/
inductive IndexKind where
  | asc
  | textKind
deriving DecidableEq

/-- The collection/index-creation calls provisioning can issue. -/
inductive ProvCall where
  | createCollectionC (name : String)
  | createIndexC (field : String) (kind : IndexKind)
  | createCompoundIndexC (fields : List String)
  | createTtlIndexC (field : String) (expireAfterSeconds : Int)
deriving DecidableEq

/-- The `createCollection` wrapper (table.js:16-20): its `.catch` handler
logs the failure message and resolves, so every failure of the store's
own `db.createCollection` — whatever its cause — is swallowed and the
wrapper's promise resolves.  `outcome` is the store call's result. -/
def createCollection (outcome : Except String Unit) : Except String Unit :=
  match outcome with
  | .ok _ => .ok ()
  | .error _ => .ok ()

/-- `Promise.mapSeries` over a step that either issues one store call or
throws synchronously: steps run one at a time in list order, stopping at
the first failure; the result is the calls actually issued and the
error, if any (no call after a failure is issued). -/
def mapSeriesCalls {α : Type} (step : α → Except String ProvCall) :
    List α → List ProvCall × Option String
  | [] => ([], none)
  | x :: xs =>
    match step x with
    | .ok c =>
      let r := mapSeriesCalls step xs
      (c :: r.1, r.2)
    | .error e => ([], some e)

/-- `createTtlIndex` (table.js:31-44) as a provisioning step:
`assert(options.expireAfterSeconds)` — a missing (or zero, hence falsy)
value throws before the index-creation call; otherwise the call is
issued with the options passed through. -/
def createTtlIndexStep : String × Option Int → Except String ProvCall
  | (field, some n) =>
    if n != 0 then .ok (.createTtlIndexC field n)
    else .error "requires ttl option: expireAfterSeconds"
  | (_, none) => .error "requires ttl option: expireAfterSeconds"

/-- Sequencing of two awaited provisioning stages: the second runs only
when the first succeeded, its calls following the first's. -/
def seqCalls (a b : List ProvCall × Option String) : List ProvCall × Option String :=
  match a.2 with
  | none => (a.1 ++ b.1, b.2)
  | some e => (a.1, some e)

/-- The provisioning sequence (table.js:79-84), each stage awaited before
the next: create the collection (the wrapper swallows failures, so this
stage never aborts), then one ascending single-field index per `indices`
entry, then the compound indexes, then the text indexes, then the TTL
indexes; within each stage `Promise.mapSeries` runs entries one at a
time in declaration order. -/
def provision (s : Schema) : List ProvCall × Option String :=
  seqCalls ([.createCollectionC s.name], none)
    (seqCalls (mapSeriesCalls (fun f => .ok (.createIndexC f .asc)) s.indices)
      (seqCalls (mapSeriesCalls (fun fs => .ok (.createCompoundIndexC fs)) s.compound)
        (seqCalls (mapSeriesCalls (fun f => .ok (.createIndexC f .textKind)) s.text)
          (mapSeriesCalls createTtlIndexStep s.ttl))))

/-! ### Sorted range queries (table.js:217-243) -/

/-- Numeric sort key of a document: the integer value of field `k`
(every document `getBySortedBetween` sorts carries a numeric `k`, forced
by its range criterion; anything else gets a default). -/
def sortNum (k : String) (d : Doc) : Int :=
  match getF d k with
  | some (.vInt n) => n
  | _ => 0

/-- Insert into a list kept in descending `sortNum` order, before any
equal key (stability). -/
def insertDescBy (k : String) (d : Doc) : Col → Col
  | [] => [d]
  | e :: es =>
    if sortNum k d ≥ sortNum k e then d :: e :: es
    else e :: insertDescBy k d es

/-- Stable descending sort by the numeric value of field `k`: the
deterministic representative of the store's `sort: {k: -1}`. -/
def sortDescBy (k : String) : Col → Col
  | [] => []
  | d :: ds => insertDescBy k d (sortDescBy k ds)

/-- Store model: `find(filter, {sort, skip, limit})` — the matching
documents, sorted (direction `-1`, the only one `table.js` passes, is
descending), after dropping `skip` and capped at `limit`. -/
def findQ (col : Col) (f : Filter) (sort : Option (String × Int))
    (skip limit : Nat) : Col :=
  let m := col.filter (fun d => matchFilter f d)
  let sorted :=
    match sort with
    | some (k, dir) => if dir == -1 then sortDescBy k m else m
    | none => m
  (sorted.drop skip).take limit

/-- `getBySortedBetween(filter = {}, max = Date.now(), min = 0, skip = 0,
limit = 100, sortKey = "created")` (table.js:217-243): four synchronous
`assert` bounds checks, then one `find` whose filter object is
`{...filter, [sortKey]: {$lte: max, $gte: min}}` — the computed key
replaces any criterion `filter` held for `sortKey` — sorted descending
by `sortKey` with `skip`/`limit`.  (The `assert(filter, ...)` on the
object argument always passes for an object and is not modelled.) -/
def getBySortedBetween (filter : Filter) (max min skip limit : Int)
    (sortKey : String) (col : Col) : Except String (Col × List OpCall) :=
  if !(max > 0) then .error "requires max"
  else if !(min ≥ 0) then .error "requires min"
  else if !(skip ≥ 0) then .error "requires skip"
  else if !(limit ≥ 1) then .error "requires limit"
  else
    let f := objSetCond filter sortKey (.crange min max)
    .ok (findQ col f (some (sortKey, -1)) skip.toNat limit.toNat,
      [.findC f (some (sortKey, -1)) skip limit])

/-- Spec-side description of the sorted range query, following the
spec's words with the one correction the code forces: the documents
matching `filter` — after discarding any criterion `filter` placed on
`sortKey` itself, which the code's spread overrides — whose `sortKey`
value lies in the closed range `[min, max]`, sorted descending by
`sortKey`, after skipping `skip` and returning at most `limit`. -/
def specSortedBetween (filter : Filter) (max min skip limit : Int)
    (sortKey : String) (col : Col) : Col :=
  ((sortDescBy sortKey (col.filter (fun d =>
      matchFilter (filter.filter (fun p => p.1 != sortKey)) d &&
        matchCond (.crange min max) (getF d sortKey)))).drop skip.toNat).take
    limit.toNat

/-! ### Array-field mutation (table.js:246-279) -/

/-- `push(id, key, items)` (table.js:246-261): three synchronous
precondition checks (`items` is `some` exactly when `Array.isArray`
holds), then `table.updateOne(...)` — but `table` is the schema property
destructured at table.js:8 (a plain schema value, `undefined` when the
schema uses `name`), not the provisioned collection `col`; no schema
value has an `updateOne` method, so the call throws a `TypeError` and no
store call is issued. -/
def push (table : Option Value) (id key : Option Value)
    (items : Option (List Value)) : Except String (List OpCall) :=
  if !jsTruthyOpt id then .error "requires id"
  else if !jsTruthyOpt key then .error "requires field key"
  else
    match items with
    | none => .error "requires tags"
    | some _ =>
      match table with
      | none => .error "TypeError: Cannot read properties of undefined (reading updateOne)"
      | some _ => .error "TypeError: table.updateOne is not a function"

/-! ### Dropping documents (table.js:180-182) -/

/-- A provisioned collection as a whole — its documents and its indexes
(recorded as the provisioning calls that created them) — to state what
an operation leaves untouched. -/
structure CollectionState where
  docs : Col
  indexes : List ProvCall

/-- Store model: `deleteMany(filter)` on the collection removes exactly
the matching documents; the collection itself and its indexes survive
(that is `deleteMany`'s contract, in contrast with the collection's own
`drop()` method, which `table.js` never calls). -/
def deleteManySt (f : Filter) (st : CollectionState) : CollectionState :=
  { st with docs := deleteManyQ f st.docs }

/-- `drop(query = {})` (table.js:180-182): delegates to
`col.deleteMany(query)`; the default argument is the match-all filter
`{}`. -/
def drop (f : Filter) (st : CollectionState) : CollectionState :=
  deleteManySt f st

/-! ### Supporting lemmas -/

instance : LawfulBEq Value where
  eq_of_beq h := Value.eq_of_beq _ _ h
  rfl := Value.beq_refl _

theorem getF_cons (p : String × Value) (d : Doc) (k : String) :
    getF (p :: d) k = if p.1 == k then some p.2 else getF d k := by
  by_cases h : p.1 == k <;> simp [getF, List.find?_cons, h]

theorem getF_append (a b : Doc) (k : String) :
    getF (a ++ b) k = (getF a k).or (getF b k) := by
  simp only [getF, List.find?_append]
  cases List.find? (fun p => p.1 == k) a <;> simp

theorem find?_key_eq_none_of_getF_none {d : Doc} {k : String}
    (h : getF d k = none) : List.find? (fun p => p.1 == k) d = none := by
  unfold getF at h
  cases hf : List.find? (fun p => p.1 == k) d with
  | none => rfl
  | some p => rw [hf] at h; simp at h

theorem any_key_eq_false_of_getF_none {d : Doc} {k : String}
    (h : getF d k = none) : d.any (fun q => q.1 == k) = false := by
  have h2 := find?_key_eq_none_of_getF_none h
  rw [List.find?_eq_none] at h2
  simp only [List.any_eq_false]
  intro q hq
  simpa using h2 q hq

/-- The spread `{identifier: i, ...d}` of a payload without an
identifier field is literally the document `("_id", i) :: d`. -/
theorem objAssign_single {d : Doc} {k : String} {v : Value}
    (h : getF d k = none) : objAssign [(k, v)] d = (k, v) :: d := by
  simp [objAssign, any_key_eq_false_of_getF_none h]

theorem find?_eq_none_of_replaceFirst_none {p : Doc → Bool} {newd : Doc} :
    ∀ {col : Col}, replaceFirst p newd col = none → col.find? p = none
  | [], _ => rfl
  | d :: ds, h => by
    unfold replaceFirst at h
    by_cases hd : p d
    · simp [hd] at h
    · cases hrec : replaceFirst p newd ds with
      | some ds2 => rw [hrec] at h; simp [hd] at h
      | none => simp [List.find?_cons, hd, find?_eq_none_of_replaceFirst_none hrec]

theorem find?_of_replaceFirst_some {p : Doc → Bool} {newd : Doc}
    (hp : p newd = true) :
    ∀ {col col2 : Col}, replaceFirst p newd col = some col2 →
      col2.find? p = some newd
  | [], _, h => by simp [replaceFirst] at h
  | d :: ds, col2, h => by
    unfold replaceFirst at h
    by_cases hd : p d
    · simp only [hd, ite_true, Option.some_inj] at h
      subst h
      simp [List.find?_cons, hp]
    · cases hrec : replaceFirst p newd ds with
      | some ds2 =>
        rw [hrec] at h
        have hcol : d :: ds2 = col2 := by simpa [hd] using h
        subst hcol
        simp [List.find?_cons, hd, find?_of_replaceFirst_some hp hrec]
      | none => rw [hrec] at h; simp [hd] at h

/-- After `replaceOne({_id: i}, r, {upsert: true})` with a payload `r`
carrying no `_id`, the first document with `_id = i` is `{_id: i, ...r}`,
whether the call replaced or inserted. -/
theorem findOneQ_replaceOne {col : Col} {i : Value} {r : Doc}
    (hr : getF r "_id" = none) :
    findOneQ (replaceOne col (some i) r true) (some i) = some (("_id", i) :: r) := by
  have hp : (fun d => getF d "_id" == some i) (("_id", i) :: r) = true := by
    simp [getF_cons]
  unfold replaceOne
  rw [hr]
  cases hrf : replaceFirst (fun d => getF d "_id" == some i) (("_id", i) :: r) col with
  | some col2 =>
    simpa [findOneQ, hrf] using find?_of_replaceFirst_some hp hrf
  | none =>
    have hnone := find?_eq_none_of_replaceFirst_none hrf
    simp [findOneQ, hrf, List.find?_append, hnone, List.find?_cons, hp]

theorem getF_setField (d : Doc) (k0 : String) (v0 : Value) (k : String) :
    getF (setField d k0 v0) k = if k0 == k then some v0 else getF d k := by
  induction d with
  | nil => simp [setField, getF_cons]
  | cons p ps ih =>
    by_cases hp : p.1 == k0
    · have hpe : p.1 = k0 := by simpa using hp
      by_cases hk : k0 == k
      · simp [setField, hp, getF_cons, hk]
      · simp [setField, hp, getF_cons, hk, hpe]
    · by_cases hk : p.1 == k
      · have hke : p.1 = k := by simpa using hk
        have hne : ¬(k0 == k) = true := by
          simp only [beq_iff_eq]
          intro h
          exact absurd (beq_iff_eq.mpr (hke.trans h.symm)) hp
        simp [setField, hp, getF_cons, hk, hne]
      · simp [setField, hp, getF_cons, hk, ih]

theorem getF_applySet (props : Doc) (d : Doc) (k : String) :
    getF (applySet d props) k = (getF props.reverse k).or (getF d k) := by
  induction props generalizing d with
  | nil => simp [applySet, getF]
  | cons p ps ih =>
    have hfold : applySet d (p :: ps) = applySet (setField d p.1 p.2) ps := rfl
    rw [hfold, ih, List.reverse_cons, getF_append, getF_setField]
    cases getF ps.reverse k <;> by_cases hp : p.1 == k <;>
      simp [getF_cons, hp, getF]

theorem getF_reverse_none {props : Doc} {k : String}
    (h : getF props k = none) : getF props.reverse k = none := by
  have h2 := find?_key_eq_none_of_getF_none h
  rw [List.find?_eq_none] at h2
  unfold getF
  rw [List.find?_eq_none.mpr (fun x hx => h2 x (List.mem_reverse.mp hx))]
  rfl

theorem replaceFirst_some_of_find?_some {p : Doc → Bool} (newd : Doc) :
    ∀ {col : Col} {d : Doc}, col.find? p = some d →
      ∃ col2, replaceFirst p newd col = some col2
  | [], _, h => by simp at h
  | e :: es, d, h => by
    by_cases hpe : p e
    · exact ⟨newd :: es, by simp [replaceFirst, hpe]⟩
    · have h2 : es.find? p = some d := by
        rw [List.find?_cons_of_neg _ (by simpa using hpe)] at h
        exact h
      obtain ⟨col2, hc⟩ := replaceFirst_some_of_find?_some newd h2
      exact ⟨e :: col2, by simp [replaceFirst, hpe, hc]⟩

theorem matchFilter_objSetCond (f : Filter) (k : String) (c : Cond) (d : Doc) :
    matchFilter (objSetCond f k c) d =
      (matchFilter (f.filter (fun p => p.1 != k)) d &&
        matchCond c (getF d k)) := by
  simp [objSetCond, matchFilter, List.all_append]

theorem mapSeriesCalls_map {α : Type} (g : α → ProvCall) (l : List α) :
    mapSeriesCalls (fun x => .ok (g x)) l = (l.map g, none) := by
  induction l with
  | nil => rfl
  | cons x xs ih => simp [mapSeriesCalls, ih]

theorem mapSeriesCalls_ttl_ok (l : List (String × Option Int))
    (h : ∀ e ∈ l, e.2.getD 0 ≠ 0) :
    mapSeriesCalls createTtlIndexStep l =
      (l.map (fun e => .createTtlIndexC e.1 (e.2.getD 0)), none) := by
  induction l with
  | nil => rfl
  | cons e l2 ih =>
    obtain ⟨f1, o1⟩ := e
    have he := h (f1, o1) (by simp)
    obtain ⟨n, rfl⟩ : ∃ n, o1 = some n := by
      cases h2 : o1 with
      | none => rw [h2] at he; simp at he
      | some n => exact ⟨n, rfl⟩
    have hn : (n != 0) = true := by simpa using he
    have ihh := ih (fun x hx => h x (by simp [hx]))
    simp [mapSeriesCalls, createTtlIndexStep, hn, ihh]

theorem mapSeriesCalls_ttl_fails (good : List (String × Option Int))
    (f : String) (o : Option Int) (rest : List (String × Option Int))
    (hgood : ∀ e ∈ good, e.2.getD 0 ≠ 0) (hbad : o.getD 0 = 0) :
    mapSeriesCalls createTtlIndexStep (good ++ (f, o) :: rest) =
      (good.map (fun e => .createTtlIndexC e.1 (e.2.getD 0)),
        some "requires ttl option: expireAfterSeconds") := by
  induction good with
  | nil =>
    cases o with
    | none => rfl
    | some n =>
      have hn : n = 0 := by simpa using hbad
      subst hn
      rfl
  | cons e good2 ih =>
    obtain ⟨f1, o1⟩ := e
    have he := hgood (f1, o1) (by simp)
    obtain ⟨n, rfl⟩ : ∃ n, o1 = some n := by
      cases h2 : o1 with
      | none => rw [h2] at he; simp at he
      | some n => exact ⟨n, rfl⟩
    have hn : (n != 0) = true := by simpa using he
    have ihh := ih (fun x hx => hgood x (by simp [hx]))
    simp [mapSeriesCalls, createTtlIndexStep, hn, ihh]

/-! ### Claims -/

/-- C1: for every identifier `i` (a truthy value, as the layer's own
`assert(id)` requires) and every payload document `d` (one not already
carrying the reserved `_id` field), `set(i, d)` followed by `get(i)`
returns a document equal to `{identifier: i, ...d}` — `d` extended with
the primary-identifier field bound to `i`. -/
theorem set_get_roundtrip (col : Col) (i : Value) (d : Doc)
    (hi : jsTruthy i = true) (hd : getF d "_id" = none) :
    get (some i) (set (some i) d true col).2.1 =
      .ok (some (objAssign [("_id", i)] d), [.findOneC (some i)]) := by
  rw [objAssign_single hd]
  simp [set, get, jsTruthyOpt, hi, findOneQ_replaceOne hd]

/-- Witness for C1 at `i = "u1"`, `d = {name: "ada"}` on the empty
collection. -/
theorem set_get_roundtrip_witness :
    jsTruthy (.vStr "u1") = true ∧
    getF [("name", Value.vStr "ada")] "_id" = none ∧
    get (some (.vStr "u1"))
        (set (some (.vStr "u1")) [("name", .vStr "ada")] true []).2.1 =
      .ok (some (objAssign [("_id", .vStr "u1")] [("name", .vStr "ada")]),
        [.findOneC (some (.vStr "u1"))]) :=
  ⟨by decide, by decide,
    set_get_roundtrip [] (.vStr "u1") [("name", .vStr "ada")]
      (by decide) (by decide)⟩

/-- C2: the claimed set-membership semantics fail on the code —
`deleteAll` issues `deleteMany({_id: {$all: ids}})` (table.js:160), and
`$all` against the scalar `_id` requires `_id` to equal every member of
`ids`: a two-id batch against a collection holding both documents
deletes neither, while a singleton batch works. -/
theorem deleteAll_uses_all_not_in :
    (deleteAll [.vStr "a", .vStr "b"]
        [[("_id", .vStr "a")], [("_id", .vStr "b")]]).1 =
      [[("_id", .vStr "a")], [("_id", .vStr "b")]] ∧
    (deleteAll [.vStr "a"]
        [[("_id", .vStr "a")], [("_id", .vStr "b")]]).1 =
      [[("_id", .vStr "b")]] :=
  ⟨by decide, by decide⟩

/-- C3 counterexample: a collection-creation failure that is not
"collection already exists" — an authorization failure, say — is also
swallowed by the catch-all handler (table.js:17-19): the wrapper
resolves instead of propagating it to the caller. -/
theorem createCollection_swallows_unauthorized :
    createCollection (.error "unauthorized") = .ok () ∧
    "unauthorized" ≠ "collection already exists" :=
  ⟨rfl, by decide⟩

/-- C3 (amended): every collection-creation failure, whatever its cause,
is swallowed (after being logged) and provisioning continues — the
wrapper's promise always resolves. -/
theorem createCollection_swallows_every_failure (outcome : Except String Unit) :
    createCollection outcome = .ok () := by
  cases outcome <;> rfl

/-- C5: `push` never updates the provisioned collection — after its
precondition checks it invokes `updateOne` on the destructured schema
property `table` (table.js:251), which for a schema declaring `name` is
`undefined` (and otherwise a plain schema value, not a collection
handle), so the call throws a `TypeError` with no store call issued and
no document changed. -/
theorem push_throws_typeerror :
    ({ name := "users" } : Schema).table = none ∧
    push ({ name := "users" } : Schema).table (some (.vStr "u1"))
        (some (.vStr "tags")) (some [.vStr "a"]) =
      .error "TypeError: Cannot read properties of undefined (reading updateOne)" :=
  ⟨rfl, rfl⟩

/-- C7 counterexample: `has` performs no identifier precondition check —
called with `undefined` it issues the `findOne` store call anyway
instead of failing synchronously. -/
theorem has_issues_call_without_id :
    has none [] = (false, [.findOneC none]) := rfl

/-- C7 (amended): only `get` and `update` guard the identifier — they
fail synchronously with no store call when none is resolvable; `set`,
`delete` and `has` perform no check and issue their store call (with an
`undefined` identifier) regardless. -/
theorem id_precondition_only_get_update (col : Col) (id : Option Value)
    (props : Doc) (upsert : Bool)
    (hid : jsTruthyOpt id = false) (hprops : getF props "id" = none) :
    get id col = .error "requires id" ∧
    update id props upsert col = .error "requires id" ∧
    (has id col).2 = [.findOneC id] ∧
    (set id props upsert col).2.2 = [.replaceOneC none props upsert] ∧
    (del id col).2.2 = [.deleteOneC id] := by
  refine ⟨?_, ?_, rfl, ?_, rfl⟩
  · simp [get, hid]
  · simp [update, hid]
  · simp [set, hid, hprops]

/-- Witness for C7 (amended) at `id = undefined`, `props = {}`. -/
theorem id_precondition_only_get_update_witness :
    jsTruthyOpt none = false ∧ getF [] "id" = none ∧
    (get none ([] : Col) = .error "requires id" ∧
      update none [] true ([] : Col) = .error "requires id" ∧
      (has none ([] : Col)).2 = [.findOneC none] ∧
      (set none [] true ([] : Col)).2.2 = [.replaceOneC none [] true] ∧
      (del none ([] : Col)).2.2 = [.deleteOneC none]) :=
  ⟨by decide, by decide,
    id_precondition_only_get_update [] none [] true (by decide) (by decide)⟩

/-- C4 counterexample: provisioning `{name: "t", ttl: [["expires", {}]]}`
does fail on the missing `expireAfterSeconds`, but only after the
collection-creation call has been issued — TTL entries are validated in
the last provisioning stage, not before provisioning starts. -/
theorem provision_fails_after_collection_call :
    provision { name := "t", ttl := [("expires", none)] } =
      ([.createCollectionC "t"],
        some "requires ttl option: expireAfterSeconds") := rfl

/-- C4 (amended): a ttl entry whose options lack `expireAfterSeconds`
(or carry a falsy one) makes provisioning fail with a precondition
failure raised before that entry's — or any later — TTL index-creation
call is issued; but the collection-creation call, every single-field,
compound and text index-creation call, and the TTL calls of the valid
entries preceding it have already been issued by then. -/
theorem provision_ttl_fails_late (s : Schema)
    (good : List (String × Option Int)) (f : String) (o : Option Int)
    (rest : List (String × Option Int))
    (httl : s.ttl = good ++ (f, o) :: rest)
    (hgood : ∀ e ∈ good, e.2.getD 0 ≠ 0) (hbad : o.getD 0 = 0) :
    provision s =
      ([ProvCall.createCollectionC s.name]
          ++ s.indices.map (fun fld => .createIndexC fld .asc)
          ++ s.compound.map (fun fs => .createCompoundIndexC fs)
          ++ s.text.map (fun fld => .createIndexC fld .textKind)
          ++ good.map (fun e => .createTtlIndexC e.1 (e.2.getD 0)),
        some "requires ttl option: expireAfterSeconds") := by
  unfold provision
  rw [httl, mapSeriesCalls_ttl_fails good f o rest hgood hbad,
    mapSeriesCalls_map (fun fld => ProvCall.createIndexC fld .asc) s.indices,
    mapSeriesCalls_map (fun fs => ProvCall.createCompoundIndexC fs) s.compound,
    mapSeriesCalls_map (fun fld => ProvCall.createIndexC fld .textKind) s.text]
  simp [seqCalls]

/-- Witness for C4 (amended): schema `{name: "t", indices: ["a"], ttl:
[["e1", {expireAfterSeconds: 5}], ["e2", {}]]}` — the valid first TTL
entry is provisioned, the invalid second aborts. -/
theorem provision_ttl_fails_late_witness :
    ([("e1", some (5 : Int)), ("e2", none)] =
        [("e1", some (5 : Int))] ++ ("e2", (none : Option Int)) :: []) ∧
    (∀ e ∈ [("e1", some (5 : Int))], e.2.getD 0 ≠ 0) ∧
    ((none : Option Int).getD 0 = 0) ∧
    provision { name := "t", indices := ["a"],
                ttl := [("e1", some 5), ("e2", none)] } =
      ([ProvCall.createCollectionC "t"]
          ++ ["a"].map (fun fld => ProvCall.createIndexC fld .asc)
          ++ ([] : List (List String)).map (fun fs => ProvCall.createCompoundIndexC fs)
          ++ ([] : List String).map (fun fld => ProvCall.createIndexC fld .textKind)
          ++ [("e1", some (5 : Int))].map
              (fun e => ProvCall.createTtlIndexC e.1 (e.2.getD 0)),
        some "requires ttl option: expireAfterSeconds") :=
  ⟨rfl, by decide, rfl,
    provision_ttl_fails_late _ [("e1", some 5)] "e2" none [] rfl
      (by decide) rfl⟩

/-- C9: provisioning issues its store calls strictly sequentially — each
stage awaited before the next, `Promise.mapSeries` serializing every
group, so no two calls are in flight at once — in the fixed order:
collection creation, one ascending single-field index per `indices`
entry in declaration order, then the compound indexes, then the text
indexes, then the TTL indexes. -/
theorem provision_fixed_sequential_order (s : Schema)
    (httl : ∀ e ∈ s.ttl, e.2.getD 0 ≠ 0) :
    provision s =
      ([ProvCall.createCollectionC s.name]
          ++ s.indices.map (fun fld => .createIndexC fld .asc)
          ++ s.compound.map (fun fs => .createCompoundIndexC fs)
          ++ s.text.map (fun fld => .createIndexC fld .textKind)
          ++ s.ttl.map (fun e => .createTtlIndexC e.1 (e.2.getD 0)),
        none) := by
  unfold provision
  rw [mapSeriesCalls_ttl_ok s.ttl httl,
    mapSeriesCalls_map (fun fld => ProvCall.createIndexC fld .asc) s.indices,
    mapSeriesCalls_map (fun fs => ProvCall.createCompoundIndexC fs) s.compound,
    mapSeriesCalls_map (fun fld => ProvCall.createIndexC fld .textKind) s.text]
  simp [seqCalls]

/-- Witness for C9 at a schema exercising all five stages. -/
theorem provision_fixed_sequential_order_witness :
    (∀ e ∈ [("created", some (3600 : Int))], e.2.getD 0 ≠ 0) ∧
    provision { name := "users", indices := ["email", "age"],
                compound := [["a", "b"]], text := ["bio"],
                ttl := [("created", some 3600)] } =
      ([ProvCall.createCollectionC "users"]
          ++ ["email", "age"].map (fun fld => ProvCall.createIndexC fld .asc)
          ++ [["a", "b"]].map (fun fs => ProvCall.createCompoundIndexC fs)
          ++ ["bio"].map (fun fld => ProvCall.createIndexC fld .textKind)
          ++ [("created", some (3600 : Int))].map
              (fun e => ProvCall.createTtlIndexC e.1 (e.2.getD 0)),
        none) :=
  ⟨by decide, provision_fixed_sequential_order _ (by decide)⟩

/-- C10: `drop(filter)` deletes exactly the documents matching `filter`
(every document under the default `{}` argument) while the collection's
indexes — and the collection itself, `deleteMany` being a document-level
operation — survive untouched. -/
theorem drop_removes_only_matching_docs (st : CollectionState) (f : Filter) :
    (drop f st).docs = st.docs.filter (fun d => !matchFilter f d) ∧
    (drop f st).indexes = st.indexes ∧
    (drop [] st).docs = [] ∧
    (drop [] st).indexes = st.indexes := by
  refine ⟨rfl, rfl, ?_, rfl⟩
  simp [drop, deleteManySt, deleteManyQ, matchFilter]

/-- C6: for a truthy `id` and a partial document that does not rewrite
the immutable `_id` field, `update(id, partialDoc)` applies a partial
field merge — fields named in `partialDoc` take its values, every other
field keeps its old value — stores the merged document, and returns it
(post-merge, the store honouring the `returnNewDocument: true` the call
passes); with no matching document and upsert not applying, the result
is absent. -/
theorem update_partial_merge (col : Col) (i : Value) (props : Doc)
    (upsert : Bool) (hi : jsTruthy i = true)
    (hprops : getF props "_id" = none) :
    (∀ d, findOneQ col (some i) = some d →
      ∃ col2,
        update (some i) props upsert col =
          .ok (some (applySet d props), col2,
            [.findOneAndUpdateC (some i) props upsert]) ∧
        findOneQ col2 (some i) = some (applySet d props) ∧
        (∀ k, getF (applySet d props) k =
          (getF props.reverse k).or (getF d k))) ∧
    (findOneQ col (some i) = none → upsert = false →
      update (some i) props upsert col =
        .ok (none, col, [.findOneAndUpdateC (some i) props false])) := by
  constructor
  · intro d hd
    have hpd : getF d "_id" = some i := by
      have hp := List.find?_some hd
      simpa using hp
    have hnew : getF (applySet d props) "_id" = some i := by
      rw [getF_applySet, getF_reverse_none hprops, hpd]
      rfl
    have hpnew : (fun e => getF e "_id" == some i) (applySet d props) = true := by
      simp [hnew]
    obtain ⟨col2, hcol2⟩ :=
      replaceFirst_some_of_find?_some (applySet d props) hd
    refine ⟨col2, ?_, ?_, fun k => getF_applySet props d k⟩
    · have hd2 : List.find? (fun e => getF e "_id" == some i) col = some d := hd
      simp [update, jsTruthyOpt, hi, findOneAndUpdateQ, findOneQ, hd2, hcol2]
    · exact find?_of_replaceFirst_some hpnew hcol2
  · intro hnone hup
    subst hup
    simp [update, jsTruthyOpt, hi, findOneAndUpdateQ, hnone]

/-- Witness for C6 at `id = "u"`, `partialDoc = {b: 9}` against a
collection holding `{_id: "u", a: 1}`. -/
theorem update_partial_merge_witness :
    ∃ col2,
      update (some (Value.vStr "u")) [("b", Value.vInt 9)] true
          [[("_id", Value.vStr "u"), ("a", Value.vInt 1)]] =
        .ok (some (applySet [("_id", Value.vStr "u"), ("a", Value.vInt 1)]
            [("b", Value.vInt 9)]), col2,
          [.findOneAndUpdateC (some (Value.vStr "u"))
            [("b", Value.vInt 9)] true]) ∧
      findOneQ col2 (some (Value.vStr "u")) =
        some (applySet [("_id", Value.vStr "u"), ("a", Value.vInt 1)]
          [("b", Value.vInt 9)]) ∧
      (∀ k, getF (applySet [("_id", Value.vStr "u"), ("a", Value.vInt 1)]
          [("b", Value.vInt 9)]) k =
        (getF [("b", Value.vInt 9)].reverse k).or
          (getF [("_id", Value.vStr "u"), ("a", Value.vInt 1)] k)) :=
  (update_partial_merge [[("_id", Value.vStr "u"), ("a", Value.vInt 1)]]
      (Value.vStr "u") [("b", Value.vInt 9)] true (by decide) (by decide)).1
    [("_id", Value.vStr "u"), ("a", Value.vInt 1)] (by decide)

/-- C8 counterexample: with `filter = {created: 5}` the spread
`{...filter, created: {$lte: 10, $gte: 0}}` (table.js:235) overrides the
filter's own `created` criterion, so a document with `created = 7` —
which does not match `filter` — is returned even though every bound
precondition holds. -/
theorem getBySortedBetween_overrides_filter_key :
    getBySortedBetween [("created", .ceq (.vInt 5))] 10 0 0 100 "created"
        [[("_id", .vInt 1), ("created", .vInt 7)]] =
      .ok ([[("_id", .vInt 1), ("created", .vInt 7)]],
        [.findC (objSetCond [("created", .ceq (.vInt 5))] "created"
            (.crange 0 10)) (some ("created", -1)) 0 100]) ∧
    matchFilter [("created", .ceq (.vInt 5))]
        [("_id", .vInt 1), ("created", .vInt 7)] = false :=
  ⟨rfl, rfl⟩

/-- C8 (amended): under the bounds preconditions `max > 0`, `min ≥ 0`,
`skip ≥ 0`, `limit ≥ 1`, `getBySortedBetween` issues one `find` and
returns exactly the documents matching `filter` — after discarding any
criterion `filter` placed on `sortKey` itself, which the range criterion
replaces — whose `sortKey` value lies in the closed range `[min, max]`,
sorted descending by `sortKey`, after skipping `skip` and returning at
most `limit`; any violated bound is a synchronous precondition failure
whose error carries no store call. -/
theorem getBySortedBetween_spec (filter : Filter) (max min skip limit : Int)
    (sortKey : String) (col : Col) :
    (max > 0 → min ≥ 0 → skip ≥ 0 → limit ≥ 1 →
      getBySortedBetween filter max min skip limit sortKey col =
        .ok (specSortedBetween filter max min skip limit sortKey col,
          [.findC (objSetCond filter sortKey (.crange min max))
              (some (sortKey, -1)) skip limit])) ∧
    (¬(max > 0 ∧ min ≥ 0 ∧ skip ≥ 0 ∧ limit ≥ 1) →
      ∃ e, getBySortedBetween filter max min skip limit sortKey col =
        .error e) := by
  constructor
  · intro h1 h2 h3 h4
    have hfn : (fun d => matchFilter
        (objSetCond filter sortKey (.crange min max)) d) =
        (fun d => matchFilter (filter.filter (fun p => p.1 != sortKey)) d &&
          matchCond (.crange min max) (getF d sortKey)) :=
      funext (fun d => matchFilter_objSetCond filter sortKey _ d)
    simp only [getBySortedBetween, findQ, specSortedBetween, hfn]
    simp [h1, h2, h3, h4]
  · intro hv
    by_cases h1 : max > 0
    · by_cases h2 : min ≥ 0
      · by_cases h3 : skip ≥ 0
        · by_cases h4 : limit ≥ 1
          · exact absurd ⟨h1, h2, h3, h4⟩ hv
          · exact ⟨"requires limit",
              by simp [getBySortedBetween, h1, h2, h3, h4]⟩
        · exact ⟨"requires skip", by simp [getBySortedBetween, h1, h2, h3]⟩
      · exact ⟨"requires min", by simp [getBySortedBetween, h1, h2]⟩
    · exact ⟨"requires max", by simp [getBySortedBetween, h1]⟩

/-- Witness for C8 at `filter = {}`, bounds `[0, 10]`, `skip = 0`,
`limit = 2` against a two-document collection. -/
theorem getBySortedBetween_spec_witness :
    getBySortedBetween [] 10 0 0 2 "created"
        [[("_id", .vInt 1), ("created", .vInt 3)],
          [("_id", .vInt 2), ("created", .vInt 8)]] =
      .ok (specSortedBetween [] 10 0 0 2 "created"
          [[("_id", .vInt 1), ("created", .vInt 3)],
            [("_id", .vInt 2), ("created", .vInt 8)]],
        [.findC (objSetCond [] "created" (.crange 0 10))
            (some ("created", -1)) 0 2]) :=
  (getBySortedBetween_spec [] 10 0 0 2 "created"
      [[("_id", .vInt 1), ("created", .vInt 3)],
        [("_id", .vInt 2), ("created", .vInt 8)]]).1
    (by decide) (by decide) (by decide) (by decide)

end MongoTable
